import Mathlib

/-!
Verification of the redis-bloom-go Bloom filter library.

Shallow embedding of the packages in `bloom/` (`bloom.go`, `redis.go`,
`config.go`, `hash.go`, `errors.go`).  Modelling conventions:

* Go `uint64` values are `Nat`, reduced modulo `2 ^ 64` where the source
  relies on wraparound (`getHashPositions`).
* Go `float64` arithmetic (`math.Log`, `math.Ceil` in
  `calculateOptimalParameters`) is modelled over `ℝ`, and
  `uint64(math.Ceil x)` as `⌈x⌉₊`.
* The remote Redis store is explicit state: a per-key bit array together
  with flags describing how the external collaborators behave during one
  call — whether `RedisClient.Pipeline()` yields a value satisfying the
  `pipeliner` interface, whether the pipelined `Exec` returns an error,
  whether the configured client's dynamic type is the concrete
  `*RedisAdapter`, and whether the follow-up `Expire` call fails.
* Each operation returns its result together with the updated store and
  the ordered list of store operations it issued, so that frame claims
  ("no bit operation is issued", "no expire is sent") are statable.
* When `Exec` fails, the store contract leaves the remote bits
  unspecified (no rollback, bits already flushed stay); the model leaves
  them unchanged, and no theorem below depends on the bit state of that
  failure path.
-/

namespace RedisBloom

/-- The modulus of Go `uint64` arithmetic. -/
def U64 : Nat := 2 ^ 64

/-- A hash strategy (`hash.go`): `Hash(data []byte, i uint) uint64`.  All
strategy implementations in the source are pure functions of the data and
the round index, so a strategy is a function; its `uint64` result is
reduced `% U64` at the use site, reflecting the Go return type. -/
abbrev HashStrategy : Type := List Nat → Nat → Nat

/-- The default strategy `NewXXHashStrategy` (`hash.go`) wraps the external
`cespare/xxhash` library, which is not part of this repository; its concrete
hash values are irrelevant to every property verified here, so it is
modelled by an arbitrary fixed pure function. -/
def NewXXHashStrategy : HashStrategy := fun _ _ => 0

/-- `Config` (`config.go`).  `RedisClient` is a Go interface value that may
be `nil`; only its nil-ness is read by construction, so it is modelled by
`redisClientNil`.  `TTL` is a `time.Duration` (signed 64-bit), modelled as
`Int`.  `FalsePositiveRate` is a `float64`, modelled as a real. -/
structure Config where
  redisKey : String
  redisClientNil : Bool
  expectedInsertions : Nat
  falsePositiveRate : ℝ
  ttl : Int
  hashStrategy : Option HashStrategy

/-- The error values of `errors.go`, plus `execError` standing for an
arbitrary error returned by the pipelined `Exec` call (propagated verbatim
by `Add` and `Exists`). -/
inductive BloomErr where
  | invalidExpectedInsertions
  | invalidFalsePositiveRate
  | emptyRedisKey
  | nilRedisClient
  | execError
  deriving DecidableEq, Repr

/-- `calculateOptimalParameters` (`redis.go` lines 66-81):
`bitSize = uint64(ceil(-n * ln p / (ln 2 * ln 2)))`,
`hashCount = uint(ceil(bitSize / n * ln 2))` floored at 1. -/
noncomputable def calculateOptimalParameters (n : Nat) (p : ℝ) : Nat × Nat :=
  let ln2 : ℝ := Real.log 2
  let ln2Squared : ℝ := ln2 * ln2
  let bitSize : Nat := ⌈-(n : ℝ) * Real.log p / ln2Squared⌉₊
  let hashCount : Nat := ⌈(bitSize : ℝ) / (n : ℝ) * ln2⌉₊
  (bitSize, if hashCount < 1 then 1 else hashCount)

/-- The `bloomFilter` struct (`bloom.go` lines 32-37), with the fields of
its embedded `Config` that `Add` and `Exists` read (`RedisKey`, `TTL`)
inlined. -/
structure bloomFilter where
  redisKey : String
  ttl : Int
  bitSize : Nat
  hashCount : Nat
  hashStrategy : HashStrategy

/-- `NewBloomFilter` (`bloom.go` lines 40-68): the four validation checks
in source order, then parameter calculation and the default-strategy
fallback.  An error result carries no filter value, so no usable handle
exists on any failed check. -/
noncomputable def NewBloomFilter (cfg : Config) : Except BloomErr bloomFilter :=
  if cfg.expectedInsertions = 0 then
    .error .invalidExpectedInsertions
  else if cfg.falsePositiveRate ≤ 0 ∨ 1 ≤ cfg.falsePositiveRate then
    .error .invalidFalsePositiveRate
  else if cfg.redisKey = "" then
    .error .emptyRedisKey
  else if cfg.redisClientNil then
    .error .nilRedisClient
  else
    let params := calculateOptimalParameters cfg.expectedInsertions cfg.falsePositiveRate
    .ok { redisKey := cfg.redisKey
          ttl := cfg.ttl
          bitSize := params.1
          hashCount := params.2
          hashStrategy := cfg.hashStrategy.getD NewXXHashStrategy }

/-- `getHashPositions` (`bloom.go` lines 134-152): double hashing.
`h1 := Hash(data, 0)`, `h2 := Hash(data, 1)`, `h2` incremented if even
(an even `h2` is at most `2^64 - 2`, so the increment cannot wrap), then
`positions[i] = (h1 + uint64(i)*h2) % bitSize` in `uint64` arithmetic. -/
def getHashPositions (bf : bloomFilter) (data : List Nat) : List Nat :=
  let h1 := bf.hashStrategy data 0 % U64
  let h2 := bf.hashStrategy data 1 % U64
  let h2o := if h2 % 2 = 0 then h2 + 1 else h2
  (List.range bf.hashCount).map fun i => (h1 + i * h2o) % U64 % bf.bitSize

/-- One operation issued against the remote store. -/
inductive StoreOp where
  | setBit (key : String) (offset : Nat) (value : Nat)
  | getBit (key : String) (offset : Nat)
  | expire (key : String) (ttl : Int)
  deriving DecidableEq, Repr

/-- Whether a store operation is an expiry refresh. -/
def StoreOp.isExpire : StoreOp → Bool
  | .expire _ _ => true
  | _ => false

/-- The remote store plus the behaviour of the external collaborators on a
call: `bits k o` is bit `o` of key `k`; `pipelineOk` says the
`pipe, ok := RedisClient.Pipeline().(pipeliner)` type assertion succeeds;
`execFails` says the pipelined `Exec` returns an error; `isRedisAdapter`
says the configured client's dynamic type is the concrete `*RedisAdapter`;
`expireFails` says the follow-up `Expire` call fails. -/
structure Store where
  bits : String → Nat → Bool
  pipelineOk : Bool
  execFails : Bool
  isRedisAdapter : Bool
  expireFails : Bool

/-- Result of `Add`: the returned `error`, the store state afterwards, and
the ordered operations issued against the store. -/
structure AddResult where
  err : Option BloomErr
  store : Store
  ops : List StoreOp

/-- `Add` (`bloom.go` lines 71-98).  Positions are derived first; a failed
pipeliner assertion returns `ErrNilRedisClient` before any operation is
issued; otherwise the k `SetBit` commands are pipelined and executed; an
`Exec` error is returned as-is; on success, if `TTL > 0` and the client is
the concrete `*RedisAdapter`, an `Expire` is issued whose returned command
is discarded by the source — its outcome influences nothing — and `Add`
returns `nil`. -/
def bloomFilter.Add (bf : bloomFilter) (data : List Nat) (s : Store) : AddResult :=
  let positions := getHashPositions bf data
  if s.pipelineOk = false then
    { err := some .nilRedisClient, store := s, ops := [] }
  else
    let setOps := positions.map fun pos => StoreOp.setBit bf.redisKey pos 1
    if s.execFails then
      { err := some .execError, store := s, ops := setOps }
    else
      let s' := { s with
        bits := fun k o => s.bits k o || (decide (k = bf.redisKey) && decide (o ∈ positions)) }
      if 0 < bf.ttl then
        if s.isRedisAdapter then
          { err := none, store := s', ops := setOps ++ [StoreOp.expire bf.redisKey bf.ttl] }
        else
          { err := none, store := s', ops := setOps }
      else
        { err := none, store := s', ops := setOps }

/-- Result of `Exists`: the returned `(bool, error)` pair and the ordered
operations issued against the store (`GetBit` does not change the store). -/
structure ExistsResult where
  present : Bool
  err : Option BloomErr
  ops : List StoreOp

/-- `Exists` (`bloom.go` lines 101-130).  Positions are derived by the same
algorithm as `Add`; a failed pipeliner assertion returns
`(false, ErrNilRedisClient)`; an `Exec` error is returned as
`(false, err)`; otherwise the result is `true` iff every one of the k read
bits is set (`cmd.Val() == 0` for any command yields `(false, nil)`). -/
def bloomFilter.Exists (bf : bloomFilter) (data : List Nat) (s : Store) : ExistsResult :=
  let positions := getHashPositions bf data
  if s.pipelineOk = false then
    { present := false, err := some .nilRedisClient, ops := [] }
  else
    let getOps := positions.map fun pos => StoreOp.getBit bf.redisKey pos
    if s.execFails then
      { present := false, err := some .execError, ops := getOps }
    else if positions.all fun pos => s.bits bf.redisKey pos then
      { present := true, err := none, ops := getOps }
    else
      { present := false, err := none, ops := getOps }

/-- A concrete filter used to exercise the theorems on explicit inputs:
two hash rounds over an eight-bit array at key `"k"`, TTL one nanosecond,
constant-zero strategy (positions `[0, 1]` for every element). -/
def bfEx : bloomFilter :=
  { redisKey := "k", ttl := 1, bitSize := 8, hashCount := 2,
    hashStrategy := fun _ _ => 0 }

/-- The concrete filter with a zero TTL. -/
def bfEx0 : bloomFilter := { bfEx with ttl := 0 }

/-- A healthy concrete store with all bits clear, whose client is not the
concrete `*RedisAdapter`. -/
def sEx : Store :=
  { bits := fun _ _ => false, pipelineOk := true, execFails := false,
    isRedisAdapter := false, expireFails := false }

/-- A healthy concrete store whose client is the concrete `*RedisAdapter`
and whose `Expire` call fails. -/
def sExpireFail : Store := { sEx with isRedisAdapter := true, expireFails := true }

/-- A concrete store whose `Pipeline()` does not satisfy the `pipeliner`
interface. -/
def sBadPipe : Store := { sEx with pipelineOk := false }

/-- Unfolding lemma: on a store with a usable pipeliner and a successful
`Exec`, `Add` leaves every bit as it was except that the derived positions
of the filter's key are additionally set. -/
theorem add_store_eq (bf : bloomFilter) (data : List Nat) (s : Store)
    (hpipe : s.pipelineOk = true) (hexec : s.execFails = false) :
    (bf.Add data s).store = { s with
      bits := fun k o => s.bits k o ||
        (decide (k = bf.redisKey) && decide (o ∈ getHashPositions bf data)) } := by
  simp only [bloomFilter.Add]
  split_ifs with h1 h2 h3 h4
  · exact absurd hpipe (by simp [h1])
  · exact absurd hexec (by simp [h2])
  · rfl
  · rfl
  · rfl

/-- Unfolding lemma: the error returned by `Add` is determined entirely by
the pipeliner assertion and the `Exec` outcome. -/
theorem add_err_eq (bf : bloomFilter) (data : List Nat) (s : Store) :
    (bf.Add data s).err =
      if s.pipelineOk = false then some .nilRedisClient
      else if s.execFails then some .execError
      else none := by
  simp only [bloomFilter.Add]
  split_ifs <;> rfl

/-- Unfolding lemma: `Add` on a store whose pipeliner assertion fails. -/
theorem add_pipeFail_eq (bf : bloomFilter) (data : List Nat) (s : Store)
    (hpipe : s.pipelineOk = false) :
    bf.Add data s = { err := some .nilRedisClient, store := s, ops := [] } := by
  simp only [bloomFilter.Add]
  rw [if_pos hpipe]

/-- Unfolding lemma: `Exists` on a store with a usable pipeliner and a
successful `Exec` reads the derived positions and reports whether all of
their bits are set. -/
theorem exists_ok_eq (bf : bloomFilter) (data : List Nat) (s : Store)
    (hpipe : s.pipelineOk = true) (hexec : s.execFails = false) :
    bf.Exists data s =
      { present := (getHashPositions bf data).all fun pos => s.bits bf.redisKey pos,
        err := none,
        ops := (getHashPositions bf data).map fun pos => StoreOp.getBit bf.redisKey pos } := by
  simp only [bloomFilter.Exists]
  split_ifs with h1 h2 h3
  · exact absurd hpipe (by simp [h1])
  · exact absurd hexec (by simp [h2])
  · rw [h3]
  · rw [Bool.not_eq_true] at h3
    rw [h3]

/-- Unfolding lemma: `Exists` on a store whose pipeliner assertion fails. -/
theorem exists_pipeFail_eq (bf : bloomFilter) (data : List Nat) (s : Store)
    (hpipe : s.pipelineOk = false) :
    bf.Exists data s = { present := false, err := some .nilRedisClient, ops := [] } := by
  simp only [bloomFilter.Exists]
  rw [if_pos hpipe]

/-- Unfolding lemma: `Exists` on a store whose pipelined `Exec` fails. -/
theorem exists_execFail_eq (bf : bloomFilter) (data : List Nat) (s : Store)
    (hpipe : s.pipelineOk = true) (hexec : s.execFails = true) :
    bf.Exists data s =
      { present := false, err := some .execError,
        ops := (getHashPositions bf data).map fun pos => StoreOp.getBit bf.redisKey pos } := by
  simp only [bloomFilter.Exists]
  rw [if_neg (by simp [hpipe]), if_pos hexec]

/-- Claim C5: for every byte sequence and every fixed filter
(`hashRounds = hashCount`, `bitCount = bitSize ≥ 1`, strategy),
`getHashPositions` returns exactly `hashCount` values, each in
`[0, bitSize)`, where the i-th value is `(h1 + i * h2) mod bitSize`
computed in unsigned 64-bit arithmetic with `h1 = strategy(data, 0)` and
`h2 = strategy(data, 1)` forced odd; and the result is deterministic — it
depends only on `(hashCount, bitSize, strategy)` and the data, so any two
calls with identical inputs return identical sequences. -/
theorem getHashPositions_spec (bf : bloomFilter) (data : List Nat)
    (hm : 1 ≤ bf.bitSize) :
    (getHashPositions bf data).length = bf.hashCount ∧
    (∀ p ∈ getHashPositions bf data, p < bf.bitSize) ∧
    (∀ i, i < bf.hashCount →
      (getHashPositions bf data)[i]? =
        some ((bf.hashStrategy data 0 % U64 +
          i * (if bf.hashStrategy data 1 % U64 % 2 = 0
               then bf.hashStrategy data 1 % U64 + 1
               else bf.hashStrategy data 1 % U64)) % U64 % bf.bitSize)) ∧
    (∀ bf' : bloomFilter, bf'.hashCount = bf.hashCount → bf'.bitSize = bf.bitSize →
      bf'.hashStrategy = bf.hashStrategy →
      getHashPositions bf' data = getHashPositions bf data) := by
  refine ⟨?_, ?_, ?_, ?_⟩
  · simp [getHashPositions]
  · intro p hp
    simp only [getHashPositions, List.mem_map] at hp
    obtain ⟨i, _, rfl⟩ := hp
    exact Nat.mod_lt _ (by omega)
  · intro i hi
    simp [getHashPositions, List.getElem?_map, List.getElem?_range, hi]
  · intro bf' h1 h2 h3
    simp [getHashPositions, h1, h2, h3]

/-- Witness for C5 at the concrete filter `bfEx` and the empty byte
sequence. -/
theorem getHashPositions_spec_witness :
    (getHashPositions bfEx []).length = bfEx.hashCount :=
  (getHashPositions_spec bfEx [] (by decide)).1

/-- Claim C2: with a usable pipeliner, `Exists` returns `present = true`
iff every one of the k bits read at the derived positions is set, with no
error, and `present = false` (with no error) if any such bit is clear;
when the batched read fails, `Exists` surfaces the error (with
`present = false`), distinguishable from a successful absent answer. -/
theorem exists_semantics (bf : bloomFilter) (data : List Nat) (s : Store)
    (hpipe : s.pipelineOk = true) :
    (s.execFails = false →
      ((bf.Exists data s).present = true ↔
        ∀ p ∈ getHashPositions bf data, s.bits bf.redisKey p = true) ∧
      (bf.Exists data s).err = none) ∧
    (s.execFails = true →
      (bf.Exists data s).err = some .execError ∧
      (bf.Exists data s).present = false) := by
  constructor
  · intro hexec
    rw [exists_ok_eq bf data s hpipe hexec]
    simp [List.all_eq_true]
  · intro hexec
    rw [exists_execFail_eq bf data s hpipe hexec]
    exact ⟨rfl, rfl⟩

/-- Witness for C2 at the concrete filter `bfEx` and the all-clear store
`sEx`. -/
theorem exists_semantics_witness :
    (bfEx.Exists [] sEx).err = none :=
  ((exists_semantics bfEx [] sEx rfl).1 rfl).2

/-- Claim C1: no false negatives.  If `Add` completes successfully (usable
pipeliner, successful batched `SetBit` execution) and the store later
still has every bit of the filter's key that `Add` left set (no bit of the
key cleared), then `Exists` for the same element on the same handle — with
its own batched read completing — returns `present = true` with no error,
because it derives exactly the same k positions as `Add`. -/
theorem no_false_negatives (bf : bloomFilter) (data : List Nat) (s s2 : Store)
    (hpipe : s.pipelineOk = true) (hexec : s.execFails = false)
    (hkeep : ∀ o, (bf.Add data s).store.bits bf.redisKey o = true →
      s2.bits bf.redisKey o = true)
    (hpipe2 : s2.pipelineOk = true) (hexec2 : s2.execFails = false) :
    (bf.Exists data s2).present = true ∧ (bf.Exists data s2).err = none := by
  have hset : ∀ o ∈ getHashPositions bf data, s2.bits bf.redisKey o = true := by
    intro o ho
    apply hkeep
    rw [add_store_eq bf data s hpipe hexec]
    simp [ho]
  rw [exists_ok_eq bf data s2 hpipe2 hexec2]
  refine ⟨?_, rfl⟩
  simpa [List.all_eq_true] using hset

/-- Witness for C1: insert into the all-clear store `sEx`, query the
resulting store unchanged. -/
theorem no_false_negatives_witness :
    (bfEx.Exists [] (bfEx.Add [] sEx).store).present = true ∧
    (bfEx.Exists [] (bfEx.Add [] sEx).store).err = none :=
  no_false_negatives bfEx [] sEx ((bfEx.Add [] sEx).store) rfl rfl
    (fun _ h => h) rfl rfl

/-- Claim C8: insert idempotence.  Running `Add` twice in succession for
the same element leaves the store in exactly the state one `Add` produced
(so in particular every subsequent `Exists`, for any element and any
filter, returns the same result in both states). -/
theorem add_idempotent (bf : bloomFilter) (data : List Nat) (s : Store)
    (hpipe : s.pipelineOk = true) (hexec : s.execFails = false) :
    (bf.Add data (bf.Add data s).store).store = (bf.Add data s).store ∧
    (∀ (bf2 : bloomFilter) (data2 : List Nat),
      bloomFilter.Exists bf2 data2 (bf.Add data (bf.Add data s).store).store =
      bloomFilter.Exists bf2 data2 (bf.Add data s).store) := by
  have h1 := add_store_eq bf data s hpipe hexec
  have hpipe' : (bf.Add data s).store.pipelineOk = true := by rw [h1]; exact hpipe
  have hexec' : (bf.Add data s).store.execFails = false := by rw [h1]; exact hexec
  have hstore : (bf.Add data (bf.Add data s).store).store = (bf.Add data s).store := by
    rw [add_store_eq bf data (bf.Add data s).store hpipe' hexec']
    rw [h1]
    congr 1
    funext k o
    simp only [Bool.or_assoc, Bool.or_self]
  exact ⟨hstore, fun bf2 data2 => by rw [hstore]⟩

/-- Witness for C8 at the concrete filter `bfEx` and store `sEx`. -/
theorem add_idempotent_witness :
    bloomFilter.Exists bfEx [] (bfEx.Add [] (bfEx.Add [] sEx).store).store =
    bloomFilter.Exists bfEx [] (bfEx.Add [] sEx).store :=
  (add_idempotent bfEx [] sEx rfl rfl).2 bfEx []

/-- Claim C9: when `Pipeline()` yields a value that does not satisfy the
internal `pipeliner` interface, `Add` and `Exists` fail immediately with
`ErrNilRedisClient` — the very error value construction uses for a missing
store — with no bit operation issued and the store untouched; `Exists`
additionally returns `present = false` alongside the error. -/
theorem pipeline_assertion_failure (bf : bloomFilter) (data : List Nat) (s : Store)
    (hpipe : s.pipelineOk = false) :
    bf.Add data s = { err := some .nilRedisClient, store := s, ops := [] } ∧
    bf.Exists data s = { present := false, err := some .nilRedisClient, ops := [] } ∧
    (∀ cfg : Config, cfg.redisClientNil = true → cfg.expectedInsertions ≠ 0 →
      0 < cfg.falsePositiveRate → cfg.falsePositiveRate < 1 → cfg.redisKey ≠ "" →
      NewBloomFilter cfg = .error .nilRedisClient) := by
  refine ⟨add_pipeFail_eq bf data s hpipe, exists_pipeFail_eq bf data s hpipe, ?_⟩
  intro cfg hnil hn hp0 hp1 hkey
  simp only [NewBloomFilter]
  rw [if_neg hn, if_neg (by push_neg; exact ⟨hp0, hp1⟩), if_neg hkey, if_pos hnil]

/-- Witness for C9 at the concrete filter `bfEx` and the store `sBadPipe`
whose pipeliner assertion fails, plus a concrete nil-client config. -/
theorem pipeline_assertion_failure_witness :
    (bfEx.Add [] sBadPipe).err = some BloomErr.nilRedisClient ∧
    (bfEx.Exists [] sBadPipe).present = false ∧
    NewBloomFilter
      { redisKey := "key", redisClientNil := true, expectedInsertions := 5,
        falsePositiveRate := 1/2, ttl := 0, hashStrategy := none } =
      .error BloomErr.nilRedisClient := by
  have h := pipeline_assertion_failure bfEx [] sBadPipe rfl
  refine ⟨by rw [h.1], by rw [h.2.1], ?_⟩
  exact h.2.2 _ rfl (by norm_num) (by norm_num) (by norm_num) (by decide)

/-- Claim C10: `Add` issues an expiry call only when the configured TTL is
strictly positive — for a zero or negative TTL no expire operation appears
among the issued store operations — and the value `Add` returns is a
function of the pipeliner assertion and the batched set-bit execution
alone: any two calls whose stores agree on those two outcomes return the
same value, whatever the TTL, the adapter type or the expiry outcome. -/
theorem add_ttl_gate (bf : bloomFilter) (data : List Nat) (s : Store) :
    (bf.ttl ≤ 0 → ∀ op ∈ (bf.Add data s).ops, op.isExpire = false) ∧
    (∀ (bf2 : bloomFilter) (data2 : List Nat) (s2 : Store),
      s2.pipelineOk = s.pipelineOk → s2.execFails = s.execFails →
      (bloomFilter.Add bf2 data2 s2).err = (bf.Add data s).err) := by
  constructor
  · intro httl op hop
    simp only [bloomFilter.Add] at hop
    split_ifs at hop with h1 h2 h3 h4
    · simp at hop
    · obtain ⟨pos, -, rfl⟩ := List.mem_map.mp hop
      rfl
    · exact absurd h3 (by omega)
    · obtain ⟨pos, -, rfl⟩ := List.mem_map.mp hop
      rfl
    · obtain ⟨pos, -, rfl⟩ := List.mem_map.mp hop
      rfl
  · intro bf2 data2 s2 hp he
    rw [add_err_eq bf2 data2 s2, add_err_eq bf data s, hp, he]

/-- Witness for C10 at the zero-TTL filter `bfEx0`: a concrete issued
operation is not an expire, and the returned error agrees with the call on
a store that differs in adapter type and expiry outcome. -/
theorem add_ttl_gate_witness :
    (StoreOp.setBit "k" 0 1).isExpire = false ∧
    (bloomFilter.Add bfEx0 [] sExpireFail).err = (bfEx0.Add [] sEx).err := by
  have h := add_ttl_gate bfEx0 [] sEx
  exact ⟨h.1 (by decide) (StoreOp.setBit "k" 0 1) (by decide), h.2 bfEx0 [] sExpireFail rfl rfl⟩

/-- Counterexample to claim C3: `bfEx` is configured with a positive TTL
and both stores have healthy pipelines.  Against `sEx`, whose client is
not the concrete `*RedisAdapter` (yet satisfies the store interface),
`Add` succeeds but issues no expiry refresh at all; against
`sExpireFail`, whose `Expire` call fails, `Add` issues the refresh yet
still returns `nil` — the refresh failure is not reported as any
`ExpiryRefreshFailed`-kind outcome. -/
theorem add_expiry_counterexample :
    (bfEx.Add [] sEx).err = none ∧
    (bfEx.Add [] sEx).ops = [StoreOp.setBit "k" 0 1, StoreOp.setBit "k" 1 1] ∧
    (bfEx.Add [] sExpireFail).err = none ∧
    (bfEx.Add [] sExpireFail).ops =
      [StoreOp.setBit "k" 0 1, StoreOp.setBit "k" 1 1, StoreOp.expire "k" 1] := by
  refine ⟨?_, ?_, ?_, ?_⟩ <;> decide

/-- Claim C3 as amended: a successful `Add` issues an expiry refresh as a
follow-up only when the TTL is positive and the configured client's
dynamic type is the concrete `*RedisAdapter`; the refresh call's outcome
is discarded — a refresh failure is neither reported to the caller nor
undoes the insert.  The element's bits are set and `Add` returns success
based solely on the batched set-bit execution. -/
theorem add_expiry_amended (bf : bloomFilter) (data : List Nat) (s : Store)
    (hpipe : s.pipelineOk = true) (hexec : s.execFails = false) :
    (bf.Add data s).err = none ∧
    ((StoreOp.expire bf.redisKey bf.ttl ∈ (bf.Add data s).ops) ↔
      0 < bf.ttl ∧ s.isRedisAdapter = true) ∧
    (∀ o, (bf.Add data s).store.bits bf.redisKey o =
      (s.bits bf.redisKey o || decide (o ∈ getHashPositions bf data))) ∧
    (bf.Add data { s with expireFails := true }).err = none := by
  refine ⟨?_, ?_, ?_, ?_⟩
  · rw [add_err_eq]
    simp [hpipe, hexec]
  · simp only [bloomFilter.Add]
    split_ifs with h1 h2 h3 h4
    · exact absurd hpipe (by simp [h1])
    · exact absurd hexec (by simp [h2])
    · simp [h3, h4]
    · simp [h3, h4]
    · simp [h3]
  · intro o
    rw [add_store_eq bf data s hpipe hexec]
    simp
  · rw [add_err_eq]
    simp [hpipe, hexec]

/-- Witness for the amended C3 at the concrete filter `bfEx` and store
`sEx`. -/
theorem add_expiry_amended_witness :
    (bfEx.Add [] sEx).err = none ∧ (bfEx.Add [] { sEx with expireFails := true }).err = none :=
  ⟨(add_expiry_amended bfEx [] sEx rfl rfl).1,
   (add_expiry_amended bfEx [] sEx rfl rfl).2.2.2⟩

/-- Claim C6: `NewBloomFilter` checks its configuration in source order
and returns a distinct error for the first failing check — zero
`ExpectedInsertions` yields `ErrInvalidExpectedInsertions`, a
`FalsePositiveRate` outside the open interval `(0, 1)` yields
`ErrInvalidFalsePositiveRate`, an empty `RedisKey` yields
`ErrEmptyRedisKey`, a nil `RedisClient` yields `ErrNilRedisClient` — and
an error result carries no filter handle; when all checks pass,
construction succeeds with no error. -/
theorem newBloomFilter_validation (cfg : Config) :
    (cfg.expectedInsertions = 0 →
      NewBloomFilter cfg = .error .invalidExpectedInsertions) ∧
    (cfg.expectedInsertions ≠ 0 →
      (cfg.falsePositiveRate ≤ 0 ∨ 1 ≤ cfg.falsePositiveRate) →
      NewBloomFilter cfg = .error .invalidFalsePositiveRate) ∧
    (cfg.expectedInsertions ≠ 0 → 0 < cfg.falsePositiveRate →
      cfg.falsePositiveRate < 1 → cfg.redisKey = "" →
      NewBloomFilter cfg = .error .emptyRedisKey) ∧
    (cfg.expectedInsertions ≠ 0 → 0 < cfg.falsePositiveRate →
      cfg.falsePositiveRate < 1 → cfg.redisKey ≠ "" → cfg.redisClientNil = true →
      NewBloomFilter cfg = .error .nilRedisClient) ∧
    (cfg.expectedInsertions ≠ 0 → 0 < cfg.falsePositiveRate →
      cfg.falsePositiveRate < 1 → cfg.redisKey ≠ "" → cfg.redisClientNil = false →
      ∃ f, NewBloomFilter cfg = .ok f) := by
  refine ⟨?_, ?_, ?_, ?_, ?_⟩
  · intro h0
    simp only [NewBloomFilter]
    rw [if_pos h0]
  · intro h0 hor
    simp only [NewBloomFilter]
    rw [if_neg h0, if_pos hor]
  · intro h0 hp0 hp1 hkey
    simp only [NewBloomFilter]
    rw [if_neg h0, if_neg (by push_neg; exact ⟨hp0, hp1⟩), if_pos hkey]
  · intro h0 hp0 hp1 hkey hnil
    simp only [NewBloomFilter]
    rw [if_neg h0, if_neg (by push_neg; exact ⟨hp0, hp1⟩), if_neg hkey, if_pos hnil]
  · intro h0 hp0 hp1 hkey hnil
    simp only [NewBloomFilter]
    rw [if_neg h0, if_neg (by push_neg; exact ⟨hp0, hp1⟩), if_neg hkey,
      if_neg (by simp [hnil])]
    exact ⟨_, rfl⟩

/-- Witness for C6: a zero-capacity config is rejected with the distinct
first error, and a fully valid config constructs successfully. -/
theorem newBloomFilter_validation_witness :
    NewBloomFilter
      { redisKey := "key", redisClientNil := false, expectedInsertions := 0,
        falsePositiveRate := 1/2, ttl := 0, hashStrategy := none } =
      .error BloomErr.invalidExpectedInsertions ∧
    ∃ f, NewBloomFilter
      { redisKey := "key", redisClientNil := false, expectedInsertions := 1000,
        falsePositiveRate := 1/2, ttl := 0, hashStrategy := none } = .ok f :=
  ⟨(newBloomFilter_validation _).1 rfl,
   (newBloomFilter_validation _).2.2.2.2 (by norm_num) (by norm_num) (by norm_num)
     (by decide) rfl⟩

/-- Decimal bounds on `log (5/4)`, from the Taylor series of
`log (1 - x)` at `x = -1/4` with nine terms. -/
theorem log_five_quarter_bounds :
    (0.2231381 : ℝ) ≤ Real.log (5/4) ∧ Real.log (5/4) ≤ (0.2231483 : ℝ) := by
  have hx : |(-(1/4) : ℝ)| < 1 := by
    rw [abs_neg, abs_of_pos (by norm_num : (0:ℝ) < 1/4)]
    norm_num
  have h := Real.abs_log_sub_add_sum_range_le hx 9
  have habs : |(-(1/4) : ℝ)| = 1/4 := by
    rw [abs_neg]
    exact abs_of_pos (by norm_num)
  rw [habs] at h
  have harg : (1:ℝ) - -(1/4) = 5/4 := by norm_num
  rw [harg] at h
  rw [abs_le] at h
  obtain ⟨hlo, hhi⟩ := h
  have hsum : (∑ i ∈ Finset.range 9, (-(1/4) : ℝ) ^ (i + 1) / (i + 1)) =
      -36852331/165150720 := by
    simp [Finset.sum_range_succ]
    norm_num
  rw [hsum] at hlo hhi
  norm_num at hlo hhi
  constructor <;> linarith

/-- `log 10` decomposed through `10 = 2^3 * (5/4)`. -/
theorem log_ten_eq : Real.log 10 = 3 * Real.log 2 + Real.log (5/4) := by
  have h : (10:ℝ) = 2^3 * (5/4) := by norm_num
  rw [h, Real.log_mul (by norm_num) (by norm_num), Real.log_pow]
  norm_num

/-- `log (1/100)` decomposed through `1/100 = (10^2)⁻¹`. -/
theorem log_hundredth_eq : Real.log ((1:ℝ)/100) = -(2 * Real.log 10) := by
  rw [show ((1:ℝ)/100) = ((10:ℝ)^2)⁻¹ by norm_num, Real.log_inv, Real.log_pow]
  norm_num

/-- Evaluation of the parameter calculator at the reference inputs
`n = 1000`, `p = 0.01`. -/
theorem calc_at_1000 : calculateOptimalParameters 1000 (1/100) = (9586, 7) := by
  have hL1 : (0.6931471803 : ℝ) < Real.log 2 := Real.log_two_gt_d9
  have hL2 : Real.log 2 < (0.6931471808 : ℝ) := Real.log_two_lt_d9
  have hc := log_five_quarter_bounds
  have hL0 : (0:ℝ) < Real.log 2 := by linarith
  have hLL : (0:ℝ) < Real.log 2 * Real.log 2 := mul_pos hL0 hL0
  have e1 : -((1000:ℕ) : ℝ) * Real.log (1/100) =
      2000 * (3 * Real.log 2 + Real.log (5/4)) := by
    push_cast
    rw [log_hundredth_eq, log_ten_eq]
    ring
  have hsqU : Real.log 2 * Real.log 2 < 0.6931471808 * 0.6931471808 :=
    mul_lt_mul'' hL2 hL2 hL0.le hL0.le
  have hsqL : (0.6931471803 : ℝ) * 0.6931471803 < Real.log 2 * Real.log 2 :=
    mul_lt_mul'' hL1 hL1 (by norm_num) (by norm_num)
  have hbit : ⌈-((1000:ℕ) : ℝ) * Real.log (1/100) / (Real.log 2 * Real.log 2)⌉₊ = 9586 := by
    rw [Nat.ceil_eq_iff (by norm_num)]
    rw [e1]
    constructor
    · show ((9586 - 1 : ℕ) : ℝ) < _
      norm_num
      rw [lt_div_iff₀ hLL]
      linarith [hc.1]
    · rw [div_le_iff₀ hLL]
      norm_num
      linarith [hc.2]
  have hhash : ⌈((9586:ℕ) : ℝ) / ((1000:ℕ) : ℝ) * Real.log 2⌉₊ = 7 := by
    rw [Nat.ceil_eq_iff (by norm_num)]
    constructor
    · show ((7 - 1 : ℕ) : ℝ) < _
      push_cast
      nlinarith
    · push_cast
      nlinarith
  simp only [calculateOptimalParameters]
  rw [hbit, hhash]
  norm_num

/-- Flooring at 1 via a conditional is the same as a binary maximum. -/
theorem ite_lt_one_eq_max (X : Nat) : (if X < 1 then 1 else X) = max 1 X := by
  rcases Nat.eq_zero_or_pos X with h | h
  · subst h
    norm_num
  · rw [if_neg (by omega)]
    omega

/-- Claim C4: for every `expectedInsertions n > 0` and rate `p` strictly
between 0 and 1, `calculateOptimalParameters` returns
`bitCount = ⌈-n * ln p / (ln 2)^2⌉` and
`hashRounds = ⌈bitCount / n * ln 2⌉` floored at 1 (Go `float64`
arithmetic modelled over `ℝ`); in particular at `n = 1000`, `p = 0.01` it
yields `bitCount = 9586` and `hashRounds = 7`. -/
theorem calculateOptimalParameters_formula :
    (∀ (n : Nat) (p : ℝ), 0 < n → 0 < p → p < 1 →
      calculateOptimalParameters n p =
        (⌈-(n : ℝ) * Real.log p / (Real.log 2 * Real.log 2)⌉₊,
         max 1 ⌈(⌈-(n : ℝ) * Real.log p / (Real.log 2 * Real.log 2)⌉₊ : ℝ) / (n : ℝ)
           * Real.log 2⌉₊)) ∧
    calculateOptimalParameters 1000 (1/100) = (9586, 7) := by
  constructor
  · intro n p _ _ _
    simp only [calculateOptimalParameters]
    rw [ite_lt_one_eq_max]
  · exact calc_at_1000

/-- Witness for C4's quantified part, instantiated at the reference
inputs. -/
theorem calculateOptimalParameters_formula_witness :
    calculateOptimalParameters 1000 (1/100) =
      (⌈-((1000:ℕ) : ℝ) * Real.log (1/100) / (Real.log 2 * Real.log 2)⌉₊,
       max 1 ⌈(⌈-((1000:ℕ) : ℝ) * Real.log (1/100) / (Real.log 2 * Real.log 2)⌉₊ : ℝ)
         / ((1000:ℕ) : ℝ) * Real.log 2⌉₊) :=
  (calculateOptimalParameters_formula).1 1000 (1/100) (by norm_num) (by norm_num)
    (by norm_num)

/-- Claim C7: over the calculator's valid domain (`n > 0`,
`p ∈ (0, 1)`), both returned parameters are at least 1 and the calculator
is deterministic; consequently, for any filter whose `bitSize` came from
the calculator, every derived hash position is strictly below `bitSize` —
the modulo in `getHashPositions` never divides by zero. -/
theorem calculateOptimalParameters_safe (n : Nat) (p : ℝ)
    (hn : 0 < n) (hp0 : 0 < p) (hp1 : p < 1) :
    1 ≤ (calculateOptimalParameters n p).1 ∧
    1 ≤ (calculateOptimalParameters n p).2 ∧
    (∀ (n' : Nat) (p' : ℝ), n' = n → p' = p →
      calculateOptimalParameters n' p' = calculateOptimalParameters n p) ∧
    (∀ (bf : bloomFilter) (data : List Nat),
      bf.bitSize = (calculateOptimalParameters n p).1 →
      ∀ pos ∈ getHashPositions bf data, pos < bf.bitSize) := by
  have hlogp : Real.log p < 0 := Real.log_neg hp0 hp1
  have hL : (0:ℝ) < Real.log 2 := Real.log_pos (by norm_num)
  have hn' : (0:ℝ) < (n:ℝ) := by exact_mod_cast hn
  have hpos : (0:ℝ) < -(n : ℝ) * Real.log p / (Real.log 2 * Real.log 2) := by
    apply div_pos
    · nlinarith
    · exact mul_pos hL hL
  have hbit : 1 ≤ (calculateOptimalParameters n p).1 := by
    simp only [calculateOptimalParameters]
    rw [Nat.one_le_ceil_iff]
    exact hpos
  refine ⟨hbit, ?_, ?_, ?_⟩
  · simp only [calculateOptimalParameters]
    split_ifs with h
    · exact le_refl 1
    · omega
  · intro n' p' hn2 hp2
    rw [hn2, hp2]
  · intro bf data hbf pos hposmem
    have hb : 1 ≤ bf.bitSize := hbf ▸ hbit
    simp only [getHashPositions, List.mem_map] at hposmem
    obtain ⟨i, -, rfl⟩ := hposmem
    exact Nat.mod_lt _ (by omega)

/-- Witness for C7 at the reference inputs. -/
theorem calculateOptimalParameters_safe_witness :
    1 ≤ (calculateOptimalParameters 1000 (1/100)).1 ∧
    1 ≤ (calculateOptimalParameters 1000 (1/100)).2 := by
  have h := calculateOptimalParameters_safe 1000 (1/100) (by norm_num) (by norm_num)
    (by norm_num)
  exact ⟨h.1, h.2.1⟩

end RedisBloom
